import Mathlib

/-!
Formal model of the FairyFun capacitive-touch LED controller
(`src/main.cpp`) together with proofs about its specified behavior.

The C++ source is a single-threaded Arduino control loop.  We embed it
shallowly:

* machine `int` values become `Int`; C truncating division (`/` on
  nonnegative or mixed signs, rounding toward zero) becomes `Int.tdiv`;
* the global circular buffers `base_readings` (size `NUM_BASELINE`) and
  `measSet` (size `NUM_MEAS`) become total functions `Nat → Int` read only
  at indices below the buffer size, summed over `Finset.range`;
* each `static` local becomes a field of an explicit state record, and every
  C function that mutates state becomes a pure function returning the new
  state (plus, where applicable, the value it computes or writes);
* `millis()` becomes an explicit per-tick time parameter and `analogWrite`
  on the LED pin becomes the `led : Int` component of the loop state.

`checkDebug` begins with an unconditional `return;`, so it never changes any
state and is modelled as a no-op.  Serial printing has no effect on program
state and is omitted.
-/

set_option maxRecDepth 4000

namespace FairyFun

/-! ### Constants from the source (`#define`s) -/

def NUM_BASELINE : Nat := 5000

def SPREAD : Int := 63

def BASELINE_TIME : Int := 5000

def LIGHT_ON_TIME : Int := 30000

def DEBUG_CLEAR_TIME : Int := 30000

def NUM_MEAS : Nat := 50

def MIN_OVER_THRESHOLD : Int := 3

def NUM_LIGHT_STEPS : Int := 150

def MINUMUM_BRIGHTNESS : Int := 10

/-! ### Truncating division helpers

C's `/` on `int` truncates toward zero; on the nonnegative operands that
occur in this program it agrees with natural-number division. -/

lemma tdiv_natCast (m n : Nat) :
    Int.tdiv (m : Int) (n : Int) = ((m / n : Nat) : Int) := rfl

lemma tdiv_nonneg_le (a b c : Nat) (h : a ≤ b) :
    Int.tdiv (a : Int) (c : Int) ≤ Int.tdiv (b : Int) (c : Int) := by
  rw [tdiv_natCast, tdiv_natCast]
  exact_mod_cast Nat.div_le_div_right h

lemma natDiv_mul_strictMono (a b : Nat) (h : a < b) :
    245 * a / 150 < 245 * b / 150 := by
  have h1 : 245 * a + 150 ≤ 245 * b := by omega
  calc 245 * a / 150 < 245 * a / 150 + 1 := Nat.lt_succ_self _
    _ = (245 * a + 150) / 150 := (Nat.add_div_right _ (by norm_num)).symm
    _ ≤ 245 * b / 150 := Nat.div_le_div_right h1

/-! ### `lightAtStep`: the pulsing triangle-wave animation

Source lines 440–476.  The `static` locals `steps` and `direction` form the
pulse state; a call updates them and writes the new brightness to the LED. -/

structure PulseState where
  steps : Int
  direction : Bool
deriving DecidableEq

def lightAtStep (s : PulseState) : PulseState × Int :=
  let dir1 : Bool := if s.steps ≥ NUM_LIGHT_STEPS then false else s.direction
  let dir2 : Bool := if s.steps ≤ 0 then true else dir1
  let steps' : Int := if dir2 then s.steps + 1 else s.steps - 1
  (⟨steps', dir2⟩,
    Int.tdiv ((255 - MINUMUM_BRIGHTNESS) * steps') NUM_LIGHT_STEPS + MINUMUM_BRIGHTNESS)

/-- Initial pulse state: `static int steps = 0; static bool direction = 1;`. -/
def pulse0 : PulseState := ⟨0, true⟩

/-- State after `n` calls of `lightAtStep` starting from the fresh state. -/
def pulseN : Nat → PulseState
  | 0 => pulse0
  | n + 1 => (lightAtStep (pulseN n)).1

/-- Brightness written by the `n`-th call (`n ≥ 1`) starting fresh. -/
def pulseOut : Nat → Int
  | 0 => 0
  | n + 1 => (lightAtStep (pulseN n)).2

lemma lightAtStep_rising (k : Int) (h0 : 0 ≤ k) (h1 : k < 150) :
    lightAtStep ⟨k, true⟩ =
      (⟨k + 1, true⟩, Int.tdiv (245 * (k + 1)) 150 + 10) := by
  simp only [lightAtStep, NUM_LIGHT_STEPS, MINUMUM_BRIGHTNESS]
  have hge : ¬ k ≥ (150 : Int) := by omega
  rcases eq_or_lt_of_le h0 with h | h
  · simp [← h]
  · have hle : ¬ k ≤ (0 : Int) := by omega
    simp [hge, hle]

lemma lightAtStep_top :
    lightAtStep ⟨150, true⟩ = (⟨149, false⟩, Int.tdiv (245 * 149) 150 + 10) := by
  simp [lightAtStep, NUM_LIGHT_STEPS, MINUMUM_BRIGHTNESS]

lemma lightAtStep_falling (k : Int) (h0 : 0 < k) (h1 : k < 150) :
    lightAtStep ⟨k, false⟩ =
      (⟨k - 1, false⟩, Int.tdiv (245 * (k - 1)) 150 + 10) := by
  simp only [lightAtStep, NUM_LIGHT_STEPS, MINUMUM_BRIGHTNESS]
  have hge : ¬ k ≥ (150 : Int) := by omega
  have hle : ¬ k ≤ (0 : Int) := by omega
  simp [hge, hle]

lemma lightAtStep_bottom :
    lightAtStep ⟨0, false⟩ = (⟨1, true⟩, Int.tdiv 245 150 + 10) := by
  simp [lightAtStep, NUM_LIGHT_STEPS, MINUMUM_BRIGHTNESS]

lemma pulseN_rising : ∀ k : Nat, k ≤ 150 → pulseN k = ⟨(k : Int), true⟩ := by
  intro k
  induction k with
  | zero => intro; rfl
  | succ m ih =>
    intro h
    have hm : m ≤ 150 := by omega
    have := ih hm
    show (lightAtStep (pulseN m)).1 = _
    rw [this, lightAtStep_rising (m : Int) (by positivity) (by exact_mod_cast by omega : (m : Int) < 150)]
    push_cast
    rfl

lemma pulseN_falling : ∀ j : Nat, j ≤ 149 → pulseN (151 + j) = ⟨149 - (j : Int), false⟩ := by
  intro j
  induction j with
  | zero =>
    intro
    show (lightAtStep (pulseN 150)).1 = _
    rw [pulseN_rising 150 le_rfl]
    rw [show ((150 : Nat) : Int) = 150 by norm_num, lightAtStep_top]
    norm_num
  | succ m ih =>
    intro h
    have hstep : pulseN (151 + (m + 1)) = (lightAtStep (pulseN (151 + m))).1 := rfl
    rw [hstep, ih (by omega), lightAtStep_falling (149 - (m : Int)) (by omega) (by omega)]
    have he : (149 : Int) - (m : Int) - 1 = 149 - ((m + 1 : Nat) : Int) := by push_cast; omega
    show (⟨149 - (m : Int) - 1, false⟩ : PulseState) = _
    rw [he]

lemma pulseOut_rising (n : Nat) (h1 : 1 ≤ n) (h2 : n ≤ 150) :
    pulseOut n = ((245 * n / 150 : Nat) : Int) + 10 := by
  obtain ⟨m, rfl⟩ : ∃ m, n = m + 1 := ⟨n - 1, by omega⟩
  show (lightAtStep (pulseN m)).2 = _
  rw [pulseN_rising m (by omega),
    lightAtStep_rising (m : Int) (by positivity) (by exact_mod_cast by omega : (m : Int) < 150)]
  have hc : (245 : Int) * ((m : Int) + 1) = ((245 * (m + 1) : Nat) : Int) := by push_cast; ring
  rw [show ((245 * ((m : Int) + 1)).tdiv 150 + 10 : Int) =
        (((245 * (m + 1) : Nat) : Int)).tdiv (((150 : Nat) : Int)) + 10 by rw [hc]; rfl,
    tdiv_natCast]

lemma pulseN_150 : pulseN 150 = ⟨150, true⟩ := by
  have h := pulseN_rising 150 le_rfl
  rw [h]
  norm_num

lemma pulseN_300 : pulseN 300 = ⟨0, false⟩ := by
  have h := pulseN_falling 149 le_rfl
  have h1 : (151 + 149 : Nat) = 300 := by norm_num
  rw [h1] at h
  rw [h]
  norm_num

lemma pulseOut_falling (n : Nat) (h1 : 150 ≤ n) (h2 : n ≤ 300) :
    pulseOut n = ((245 * (300 - n) / 150 : Nat) : Int) + 10 := by
  rcases eq_or_lt_of_le h1 with h | h
  · rw [← h, pulseOut_rising 150 (by norm_num) le_rfl]
  rcases eq_or_lt_of_le (show 151 ≤ n by omega) with h' | h'
  · obtain rfl : n = 151 := by omega
    show (lightAtStep (pulseN 150)).2 = _
    rw [pulseN_150, lightAtStep_top]
    rw [show ((245 * 149 : Int)).tdiv 150 + 10 =
          (((245 * 149 : Nat) : Int)).tdiv (((150 : Nat) : Int)) + 10 by norm_num,
      tdiv_natCast]
  · obtain ⟨j, rfl⟩ : ∃ j, n = 151 + j + 1 := ⟨n - 152, by omega⟩
    show (lightAtStep (pulseN (151 + j))).2 = _
    have hj : j ≤ 149 := by omega
    rw [pulseN_falling j hj,
      lightAtStep_falling (149 - (j : Int)) (by omega) (by omega)]
    have hc : (245 : Int) * (149 - (j : Int) - 1) = ((245 * (300 - (151 + j + 1)) : Nat) : Int) := by
      push_cast [show 300 - (151 + j + 1) = 148 - j by omega]
      omega
    rw [show ((245 * (149 - (j : Int) - 1)).tdiv 150 + 10 : Int) =
          (((245 * (300 - (151 + j + 1)) : Nat) : Int)).tdiv (((150 : Nat) : Int)) + 10 by
        rw [hc]; rfl,
      tdiv_natCast]

lemma pulseN_301 : pulseN 301 = pulseN 1 := by
  show (lightAtStep (pulseN 300)).1 = (lightAtStep (pulseN 0)).1
  rw [pulseN_300, lightAtStep_bottom]
  show _ = (lightAtStep ⟨0, true⟩).1
  rw [lightAtStep_rising 0 le_rfl (by norm_num)]
  norm_num

lemma pulseN_period : ∀ m : Nat, pulseN (m + 301) = pulseN (m + 1) := by
  intro m
  induction m with
  | zero => simpa using pulseN_301
  | succ k ih =>
    have h1 : k + 1 + 301 = (k + 301) + 1 := by omega
    rw [h1]
    show (lightAtStep (pulseN (k + 301))).1 = (lightAtStep (pulseN (k + 1))).1
    rw [ih]

lemma pulseOut_period (n : Nat) (h : 1 ≤ n) : pulseOut (n + 300) = pulseOut n := by
  obtain ⟨m, rfl⟩ : ∃ m, n = m + 1 := ⟨n - 1, by omega⟩
  have h1 : m + 1 + 300 = (m + 300) + 1 := by omega
  rw [h1]
  show (lightAtStep (pulseN (m + 300))).2 = (lightAtStep (pulseN m)).2
  cases m with
  | zero =>
    simp only [Nat.zero_add]
    rw [pulseN_300]
    show (lightAtStep ⟨0, false⟩).2 = (lightAtStep pulse0).2
    rw [lightAtStep_bottom, show (pulse0 : PulseState) = ⟨0, true⟩ from rfl,
      lightAtStep_rising 0 le_rfl (by norm_num)]
    norm_num
  | succ k =>
    have h2 : k + 1 + 300 = k + 301 := by omega
    rw [h2, pulseN_period k]

lemma lightAtStep_steps_bounds (s : PulseState) (h0 : 0 ≤ s.steps) (h1 : s.steps ≤ 150) :
    0 ≤ (lightAtStep s).1.steps ∧ (lightAtStep s).1.steps ≤ 150 := by
  simp only [lightAtStep, NUM_LIGHT_STEPS]
  split_ifs <;> simp_all <;> omega

lemma pulseN_steps_bounds : ∀ n : Nat, 0 ≤ (pulseN n).steps ∧ (pulseN n).steps ≤ 150 := by
  intro n
  induction n with
  | zero => norm_num [pulseN, pulse0]
  | succ k ih => exact lightAtStep_steps_bounds (pulseN k) ih.1 ih.2

lemma lightAtStep_out_eq (s : PulseState) :
    (lightAtStep s).2 = Int.tdiv (245 * (lightAtStep s).1.steps) 150 + 10 := rfl

lemma tdiv_245_bounds (b : Int) (h0 : 0 ≤ b) (h1 : b ≤ 150) :
    0 ≤ Int.tdiv (245 * b) 150 ∧ Int.tdiv (245 * b) 150 ≤ 245 := by
  obtain ⟨t, rfl⟩ : ∃ t : Nat, b = (t : Int) := ⟨b.toNat, (Int.toNat_of_nonneg h0).symm⟩
  have ht : t ≤ 150 := by exact_mod_cast h1
  rw [show (245 : Int) * (t : Int) = ((245 * t : Nat) : Int) by push_cast; ring,
    show (150 : Int) = ((150 : Nat) : Int) from rfl, tdiv_natCast]
  constructor
  · positivity
  · have : 245 * t / 150 ≤ 245 * 150 / 150 := Nat.div_le_div_right (by omega)
    omega

lemma pulseOut_bounds (n : Nat) (h : 1 ≤ n) :
    10 ≤ pulseOut n ∧ pulseOut n ≤ 255 := by
  obtain ⟨m, rfl⟩ : ∃ m, n = m + 1 := ⟨n - 1, by omega⟩
  show 10 ≤ (lightAtStep (pulseN m)).2 ∧ (lightAtStep (pulseN m)).2 ≤ 255
  rw [lightAtStep_out_eq]
  have hs : (lightAtStep (pulseN m)).1 = pulseN (m + 1) := rfl
  rw [hs]
  obtain ⟨hb0, hb1⟩ := pulseN_steps_bounds (m + 1)
  have := tdiv_245_bounds (pulseN (m + 1)).steps hb0 hb1
  omega

/-- Claim C4 as stated is false on the code: starting from the fresh
pulse state, the 300th call to `lightAtStep` drives `steps` back to 0 and
outputs brightness `10` (which is `MINUMUM_BRIGHTNESS`), not `11`. -/
theorem pulse_300th_call_not_11 : pulseOut 300 = 10 ∧ ¬ pulseOut 300 = 11 := by
  have h := pulseOut_falling 300 (by norm_num) le_rfl
  norm_num at h
  exact ⟨h, by rw [h]; norm_num⟩

/-- Claim C4 (amended): with MinBrightness=10 and StepsMax=150, from a fresh
PulseState the 1st call to the pulsing behavior outputs 11, the 150th call
outputs 255, the 300th call outputs 10 (exactly MinBrightness), and the 301st
call outputs 11 again. -/
theorem pulse_scenario_amended :
    pulseOut 1 = 11 ∧ pulseOut 150 = 255 ∧ pulseOut 300 = 10 ∧ pulseOut 301 = 11 := by
  refine ⟨?_, ?_, ?_, ?_⟩
  · rw [pulseOut_rising 1 le_rfl (by norm_num)]; norm_num
  · rw [pulseOut_rising 150 (by norm_num) le_rfl]; norm_num
  · have h := pulseOut_falling 300 (by norm_num) le_rfl
    norm_num at h
    exact h
  · have h := pulseOut_period 1 le_rfl
    norm_num at h
    rw [h, pulseOut_rising 1 le_rfl (by norm_num)]
    norm_num

/-- Claim C5: from a fresh PulseState the brightness over the first
`2 * StepsMax = 300` calls strictly increases (calls 1..150) and then
strictly decreases (calls 150..300), stays between MinBrightness and 255,
and the output sequence repeats exactly with period 300 thereafter,
independent of any input (the pulse takes no input at all). -/
theorem pulse_triangle_wave :
    (∀ n : Nat, 1 ≤ n → n < 150 → pulseOut n < pulseOut (n + 1)) ∧
    (∀ n : Nat, 150 ≤ n → n < 300 → pulseOut (n + 1) < pulseOut n) ∧
    (∀ n : Nat, 1 ≤ n → MINUMUM_BRIGHTNESS ≤ pulseOut n ∧ pulseOut n ≤ 255) ∧
    (∀ n : Nat, 1 ≤ n → pulseOut (n + 300) = pulseOut n) := by
  refine ⟨?_, ?_, ?_, ?_⟩
  · intro n h1 h2
    rw [pulseOut_rising n h1 (by omega), pulseOut_rising (n + 1) (by omega) (by omega)]
    have := natDiv_mul_strictMono n (n + 1) (by omega)
    have hc : ((245 * n / 150 : Nat) : Int) < ((245 * (n + 1) / 150 : Nat) : Int) := by
      exact_mod_cast this
    omega
  · intro n h1 h2
    rw [pulseOut_falling n h1 (by omega), pulseOut_falling (n + 1) (by omega) (by omega)]
    have := natDiv_mul_strictMono (300 - (n + 1)) (300 - n) (by omega)
    have hc : ((245 * (300 - (n + 1)) / 150 : Nat) : Int) < ((245 * (300 - n) / 150 : Nat) : Int) := by
      exact_mod_cast this
    omega
  · intro n h1
    have := pulseOut_bounds n h1
    exact ⟨by exact_mod_cast this.1, this.2⟩
  · exact pulseOut_period

theorem pulse_triangle_wave_witness :
    pulseOut 5 < pulseOut 6 ∧ pulseOut 201 < pulseOut 200 ∧
      (MINUMUM_BRIGHTNESS ≤ pulseOut 7 ∧ pulseOut 7 ≤ 255) ∧ pulseOut 302 = pulseOut 2 :=
  ⟨pulse_triangle_wave.1 5 (by norm_num) (by norm_num),
   pulse_triangle_wave.2.1 200 (by norm_num) (by norm_num),
   pulse_triangle_wave.2.2.1 7 (by norm_num),
   pulse_triangle_wave.2.2.2 2 (by norm_num)⟩

/-- Claim C9: starting from the fresh pulse state (`steps = 0`), after any
number of calls to the pulsing behavior, `steps` remains in `[0, StepsMax]`
(that is, `0 ≤ steps ≤ 150`). -/
theorem pulse_steps_invariant :
    ∀ n : Nat, 0 ≤ (pulseN n).steps ∧ (pulseN n).steps ≤ NUM_LIGHT_STEPS :=
  pulseN_steps_bounds

/-! ### Touch classification (loop lines 300–312) -/

/-- The touch test of the control loop: `qt1 >= qt_Threshold` where
`qt_Threshold = qt_base + SPREAD`. -/
def isTouch (reading baseline : Int) : Bool := decide (reading ≥ baseline + SPREAD)

/-- Claim C8: the touch classification is monotonic in the reading: if
`isTouch r1 b` holds and `r2 > r1` then `isTouch r2 b` holds. -/
theorem isTouch_monotone (b r1 r2 : Int) (h : isTouch r1 b = true) (hgt : r2 > r1) :
    isTouch r2 b = true := by
  simp only [isTouch, decide_eq_true_eq] at h ⊢
  omega

theorem isTouch_monotone_witness :
    isTouch 788 725 = true ∧ (800 : Int) > 788 ∧ isTouch 800 725 = true :=
  ⟨by decide, by decide, isTouch_monotone 725 788 800 (by decide) (by decide)⟩

/-! ### `baseAvg`: the baseline estimator (source lines 179–193)

`base_readings` is a circular buffer of `NUM_BASELINE` ints and `base_ct`
the call counter.  `baseAvg` increments the counter, overwrites slot
`base_ct % NUM_BASELINE`, and returns the truncating-integer mean of the
whole buffer. -/

structure BaseState where
  readings : Nat → Int
  ct : Nat

def baseSum (r : Nat → Int) : Int := ∑ i ∈ Finset.range NUM_BASELINE, r i

def baseAvg (s : BaseState) (reading : Int) : BaseState × Int :=
  let ct' := s.ct + 1
  let readings' := Function.update s.readings (ct' % NUM_BASELINE) reading
  (⟨readings', ct'⟩, Int.tdiv (baseSum readings') (NUM_BASELINE : Int))

/-- The state set up by `setup()`: every slot holds the seed value
(`qt_base = 725` in the source) and no call has happened yet. -/
def freshBase (seed : Int) : BaseState := ⟨fun _ => seed, 0⟩

def runBase : BaseState → List Int → BaseState
  | s, [] => s
  | s, r :: rs => runBase (baseAvg s r).1 rs

def baseOutputs : BaseState → List Int → List Int
  | _, [] => []
  | s, r :: rs => (baseAvg s r).2 :: baseOutputs (baseAvg s r).1 rs

lemma runBase_append (s : BaseState) (l1 l2 : List Int) :
    runBase s (l1 ++ l2) = runBase (runBase s l1) l2 := by
  induction l1 generalizing s with
  | nil => rfl
  | cons r t ih => exact ih (baseAvg s r).1

lemma baseAvg_snd (s : BaseState) (r : Int) :
    (baseAvg s r).2 = Int.tdiv (baseSum ((baseAvg s r).1).readings) (NUM_BASELINE : Int) := by
  simp only [baseAvg]

lemma baseOutputs_append_singleton (s : BaseState) (l : List Int) (r : Int) :
    baseOutputs s (l ++ [r]) = baseOutputs s l ++ [(baseAvg (runBase s l) r).2] := by
  induction l generalizing s with
  | nil => rfl
  | cons a t ih =>
    show (baseAvg s a).2 :: baseOutputs (baseAvg s a).1 (t ++ [r]) = _
    rw [ih]
    rfl

lemma baseOutputs_getLast (s : BaseState) (rs : List Int) (h : rs ≠ []) :
    (baseOutputs s rs).getLast?
      = some (Int.tdiv (baseSum (runBase s rs).readings) (NUM_BASELINE : Int)) := by
  rcases List.eq_nil_or_concat rs with rfl | ⟨l, r, rfl⟩
  · exact absurd rfl h
  · rw [List.concat_eq_append]
    rw [baseOutputs_append_singleton, List.getLast?_concat, runBase_append,
      show runBase (runBase s l) [r] = (baseAvg (runBase s l) r).1 from rfl]
    exact congrArg some (baseAvg_snd (runBase s l) r)

lemma sum_update_range (N : Nat) (f : Nat → Int) (k : Nat) (hk : k < N) (v : Int) :
    ∑ i ∈ Finset.range N, Function.update f k v i
      = (∑ i ∈ Finset.range N, f i) - f k + v := by
  rw [Finset.sum_update_of_mem (Finset.mem_range.mpr hk),
    Finset.sdiff_singleton_eq_erase,
    Finset.sum_erase_eq_sub (Finset.mem_range.mpr hk)]
  ring

lemma runBase_fresh_spec (seed : Int) (rs : List Int) (hlen : rs.length ≤ NUM_BASELINE) :
    (runBase (freshBase seed) rs).ct = rs.length ∧
      (∀ i, (i = 0 ∧ rs.length < NUM_BASELINE) ∨ rs.length < i →
        (runBase (freshBase seed) rs).readings i = seed) ∧
      baseSum (runBase (freshBase seed) rs).readings
        = seed * ((NUM_BASELINE - rs.length : Nat) : Int) + rs.sum := by
  induction rs using List.reverseRecOn with
  | nil =>
    refine ⟨rfl, fun i _ => rfl, ?_⟩
    show ∑ _i ∈ Finset.range NUM_BASELINE, seed = _
    rw [Finset.sum_const, Finset.card_range, nsmul_eq_mul]
    simp [NUM_BASELINE]
    ring
  | append_singleton l r ih =>
    have hlen1 : (l ++ [r]).length = l.length + 1 := by simp
    have hlen' : l.length + 1 ≤ NUM_BASELINE := by
      have h := hlen
      rw [hlen1] at h
      exact h
    have hl : l.length ≤ NUM_BASELINE := by omega
    obtain ⟨ihct, ihval, ihsum⟩ := ih hl
    have hrun : runBase (freshBase seed) (l ++ [r])
        = (baseAvg (runBase (freshBase seed) l) r).1 := by
      rw [runBase_append]
      rfl
    set t := runBase (freshBase seed) l with ht
    have hslotlt : (t.ct + 1) % NUM_BASELINE < NUM_BASELINE :=
      Nat.mod_lt _ (by norm_num [NUM_BASELINE])
    have hold : t.readings ((t.ct + 1) % NUM_BASELINE) = seed := by
      rcases Nat.lt_or_ge (t.ct + 1) NUM_BASELINE with hc | hc
      · rw [Nat.mod_eq_of_lt hc]
        exact ihval _ (Or.inr (by omega))
      · have hceq : t.ct + 1 = NUM_BASELINE := by omega
        rw [hceq, Nat.mod_self]
        exact ihval 0 (Or.inl ⟨rfl, by omega⟩)
    refine ⟨?_, ?_, ?_⟩
    · rw [hrun]
      show t.ct + 1 = _
      rw [ihct, hlen1]
    · intro i hi
      rw [hrun]
      show Function.update t.readings ((t.ct + 1) % NUM_BASELINE) r i = seed
      rw [hlen1] at hi
      have hne : i ≠ (t.ct + 1) % NUM_BASELINE := by
        rcases hi with ⟨rfl, hlt⟩ | hgt
        · rw [ihct]
          intro hcontra
          have : (l.length + 1) % NUM_BASELINE = l.length + 1 := by
            rw [Nat.mod_eq_of_lt hlt]
          omega
        · rw [ihct]
          intro hcontra
          have : (l.length + 1) % NUM_BASELINE ≤ l.length + 1 := Nat.mod_le _ _
          omega
      rw [Function.update_noteq hne]
      apply ihval
      rcases hi with ⟨rfl, hlt⟩ | hgt
      · exact Or.inl ⟨rfl, by omega⟩
      · exact Or.inr (by omega)
    · rw [hrun]
      show baseSum (Function.update t.readings ((t.ct + 1) % NUM_BASELINE) r) = _
      unfold baseSum
      rw [sum_update_range NUM_BASELINE t.readings _ hslotlt r, hold]
      have hsum : ∑ i ∈ Finset.range NUM_BASELINE, t.readings i
          = seed * ((NUM_BASELINE - l.length : Nat) : Int) + l.sum := ihsum
      rw [hsum, hlen1, List.sum_append]
      have hcast : ((NUM_BASELINE - l.length : Nat) : Int)
          = ((NUM_BASELINE - (l.length + 1) : Nat) : Int) + 1 := by omega
      rw [hcast]
      simp [List.sum_cons]
      ring

/-- Claim C1: `baseAvg` returns the exact truncating-integer mean of the
buffer contents after inserting the new reading at slot
`call-count % NUM_BASELINE` (call count starting at 1); consequently, feeding
exactly `NUM_BASELINE` readings through a freshly seeded estimator makes the
final call return the truncating integer mean of exactly those readings. -/
theorem baseAvg_exact_mean :
    (∀ (s : BaseState) (r : Int),
        (baseAvg s r).2 =
          Int.tdiv (baseSum (Function.update s.readings ((s.ct + 1) % NUM_BASELINE) r))
            (NUM_BASELINE : Int)) ∧
    (∀ (seed : Int) (rs : List Int), rs.length = NUM_BASELINE →
        (baseOutputs (freshBase seed) rs).getLast?
          = some (Int.tdiv rs.sum (NUM_BASELINE : Int))) := by
  constructor
  · intro s r
    simp only [baseAvg]
  · intro seed rs hlen
    have hne : rs ≠ [] := by
      intro h
      rw [h] at hlen
      simp [NUM_BASELINE] at hlen
    rw [baseOutputs_getLast (freshBase seed) rs hne]
    obtain ⟨-, -, hsum⟩ := runBase_fresh_spec seed rs (le_of_eq hlen)
    rw [hsum, hlen]
    norm_num

theorem baseAvg_exact_mean_witness :
    (List.replicate NUM_BASELINE (725 : Int)).length = NUM_BASELINE ∧
      (baseOutputs (freshBase 725) (List.replicate NUM_BASELINE (725 : Int))).getLast?
        = some (Int.tdiv (List.replicate NUM_BASELINE (725 : Int)).sum (NUM_BASELINE : Int)) :=
  ⟨List.length_replicate _ _, baseAvg_exact_mean.2 725 _ (List.length_replicate _ _)⟩

/-! ### `addMeasurement` and `lightAtNear` (source lines 362–433)

`measSet` is a circular buffer of `NUM_MEAS` ints with `static` counter
`measCount`; `lightAtNear` owns the `static int lastLightMeasure` and writes
the LED.  Because the near branch may skip its `analogWrite`, `lightAtNear`
takes the current LED value and returns the (possibly unchanged) new one. -/

structure MeasState where
  measSet : Nat → Int
  measCount : Nat

def measSum (m : Nat → Int) : Int := ∑ i ∈ Finset.range NUM_MEAS, m i

def addMeasurement (s : MeasState) (measurement : Int) : MeasState × Int :=
  let ct' := s.measCount + 1
  let set' := Function.update s.measSet (ct' % NUM_MEAS) measurement
  (⟨set', ct'⟩, Int.tdiv (measSum set') (NUM_MEAS : Int))

structure NearState where
  meas : MeasState
  lastLightMeasure : Int

def lightAtNear (base : Int) (s : NearState) (led : Int) (measurement : Int) :
    NearState × Int :=
  if measurement > base + MIN_OVER_THRESHOLD then
    let r := addMeasurement s.meas measurement
    let lastLightMeasure' := r.2 - base
    if r.2 > base + MIN_OVER_THRESHOLD then (⟨r.1, lastLightMeasure'⟩, lastLightMeasure')
    else (⟨r.1, lastLightMeasure'⟩, led)
  else
    let r := addMeasurement s.meas 0
    let closingValue := r.2 - base
    let closingValue2 :=
      if closingValue > s.lastLightMeasure then s.lastLightMeasure else closingValue
    let closingValue3 := if closingValue2 < 0 then 0 else closingValue2
    if r.2 > base - MIN_OVER_THRESHOLD then (⟨r.1, s.lastLightMeasure⟩, closingValue3)
    else (⟨r.1, s.lastLightMeasure⟩, 0)

/-- The brightness the fade-out branch of `lightAtNear` writes, as a function
of the new running average. -/
def fadeLed (base last avg : Int) : Int :=
  let closingValue := avg - base
  let closingValue2 := if closingValue > last then last else closingValue
  let closingValue3 := if closingValue2 < 0 then 0 else closingValue2
  if avg > base - MIN_OVER_THRESHOLD then closingValue3 else 0

def nearRun (base : Int) : NearState × Int → List Int → NearState × Int
  | p, [] => p
  | p, m :: ms => nearRun base (lightAtNear base p.1 p.2 m) ms

lemma nearRun_append (base : Int) (p : NearState × Int) (l1 l2 : List Int) :
    nearRun base p (l1 ++ l2) = nearRun base (nearRun base p l1) l2 := by
  induction l1 generalizing p with
  | nil => rfl
  | cons a t ih => exact ih (lightAtNear base p.1 p.2 a)

lemma addMeasurement_fst (s : MeasState) (m : Int) :
    (addMeasurement s m).1
      = ⟨Function.update s.measSet ((s.measCount + 1) % NUM_MEAS) m, s.measCount + 1⟩ := by
  simp only [addMeasurement]

lemma addMeasurement_snd (s : MeasState) (m : Int) :
    (addMeasurement s m).2
      = Int.tdiv (measSum ((addMeasurement s m).1).measSet) (NUM_MEAS : Int) := by
  simp only [addMeasurement]

lemma lightAtNear_fade (base : Int) (s : NearState) (led m : Int)
    (hm : m ≤ base + MIN_OVER_THRESHOLD) :
    lightAtNear base s led m
      = (⟨(addMeasurement s.meas 0).1, s.lastLightMeasure⟩,
          fadeLed base s.lastLightMeasure (addMeasurement s.meas 0).2) := by
  have hcond : ¬ m > base + MIN_OVER_THRESHOLD := by omega
  simp only [lightAtNear, fadeLed, if_neg hcond]
  split_ifs <;> rfl

lemma fadeLed_nonneg (base last avg : Int) : 0 ≤ fadeLed base last avg := by
  simp only [fadeLed]
  split_ifs <;> omega

lemma fadeLed_le (base last avg : Int) (h : 0 ≤ last) : fadeLed base last avg ≤ last := by
  simp only [fadeLed]
  split_ifs <;> omega

lemma fadeLed_mono (base last a b : Int) (h : a ≤ b) :
    fadeLed base last a ≤ fadeLed base last b := by
  simp only [fadeLed]
  split_ifs <;> omega

lemma fadeLed_zero (base last : Int) (hb : 0 ≤ base) (hl : 0 ≤ last) :
    fadeLed base last 0 = 0 := by
  simp only [fadeLed]
  split_ifs <;> omega

lemma tdiv_natCast_nonneg (m k : Nat) : 0 ≤ Int.tdiv (m : Int) (k : Int) := by
  rw [tdiv_natCast]
  positivity

lemma tdiv_le_tdiv_natCast (a b : Int) (k : Nat) (ha : 0 ≤ a) (h : a ≤ b) :
    Int.tdiv a (k : Int) ≤ Int.tdiv b (k : Int) := by
  obtain ⟨m, rfl⟩ : ∃ m : Nat, a = (m : Int) := ⟨a.toNat, (Int.toNat_of_nonneg ha).symm⟩
  obtain ⟨n, rfl⟩ : ∃ n : Nat, b = (n : Int) :=
    ⟨b.toNat, (Int.toNat_of_nonneg (ha.trans h)).symm⟩
  exact tdiv_nonneg_le m n k (by exact_mod_cast h)

lemma addMeasurement_zero_spec (s : MeasState) (hnn : ∀ i, 0 ≤ s.measSet i) :
    (∀ i, 0 ≤ (addMeasurement s 0).1.measSet i) ∧
      (addMeasurement s 0).1.measCount = s.measCount + 1 ∧
      measSum ((addMeasurement s 0).1).measSet ≤ measSum s.measSet ∧
      0 ≤ measSum ((addMeasurement s 0).1).measSet ∧
      (addMeasurement s 0).1.measSet ((s.measCount + 1) % NUM_MEAS) = 0 ∧
      (∀ i, (addMeasurement s 0).1.measSet i = s.measSet i
          ∨ (addMeasurement s 0).1.measSet i = 0) := by
  rw [addMeasurement_fst]
  have hslot : (s.measCount + 1) % NUM_MEAS < NUM_MEAS :=
    Nat.mod_lt _ (by norm_num [NUM_MEAS])
  have hupd : ∀ i, Function.update s.measSet ((s.measCount + 1) % NUM_MEAS) 0 i
      = s.measSet i ∨ Function.update s.measSet ((s.measCount + 1) % NUM_MEAS) 0 i = 0 := by
    intro i
    rcases eq_or_ne i ((s.measCount + 1) % NUM_MEAS) with rfl | hne
    · exact Or.inr (Function.update_same _ _ _)
    · exact Or.inl (Function.update_noteq hne _ _)
  have hnn' : ∀ i, 0 ≤ Function.update s.measSet ((s.measCount + 1) % NUM_MEAS) 0 i := by
    intro i
    rcases hupd i with h | h
    · rw [h]; exact hnn i
    · rw [h]
  refine ⟨hnn', rfl, ?_, ?_, Function.update_same _ _ _, hupd⟩
  · show measSum (Function.update s.measSet ((s.measCount + 1) % NUM_MEAS) 0) ≤ _
    unfold measSum
    rw [sum_update_range NUM_MEAS s.measSet _ hslot 0]
    have := hnn ((s.measCount + 1) % NUM_MEAS)
    omega
  · exact Finset.sum_nonneg fun i _ => hnn' i

lemma fadeRun (base : Int) (ms : List Int) :
    ∀ (s : NearState) (led : Int),
      (∀ m ∈ ms, m ≤ base + MIN_OVER_THRESHOLD) →
      (∀ i, 0 ≤ s.meas.measSet i) →
      (∀ i, 0 ≤ (nearRun base (s, led) ms).1.meas.measSet i) ∧
        (nearRun base (s, led) ms).1.lastLightMeasure = s.lastLightMeasure ∧
        (nearRun base (s, led) ms).1.meas.measCount = s.meas.measCount + ms.length ∧
        measSum ((nearRun base (s, led) ms).1).meas.measSet ≤ measSum s.meas.measSet ∧
        0 ≤ measSum ((nearRun base (s, led) ms).1).meas.measSet ∧
        (ms ≠ [] → (nearRun base (s, led) ms).2
            = fadeLed base s.lastLightMeasure
                (Int.tdiv (measSum ((nearRun base (s, led) ms).1).meas.measSet)
                  (NUM_MEAS : Int))) ∧
        (∀ i, (nearRun base (s, led) ms).1.meas.measSet i = s.meas.measSet i
            ∨ (nearRun base (s, led) ms).1.meas.measSet i = 0) ∧
        (∀ i t, 1 ≤ t → t ≤ ms.length → (s.meas.measCount + t) % NUM_MEAS = i →
            (nearRun base (s, led) ms).1.meas.measSet i = 0) := by
  induction ms with
  | nil =>
    intro s led _ hnn
    refine ⟨hnn, rfl, rfl, le_rfl, Finset.sum_nonneg fun i _ => hnn i,
      fun h => absurd rfl h, fun i => Or.inl rfl, ?_⟩
    intro i t h1 h2 _
    simp at h2
    omega
  | cons m ms' ih =>
    intro s led hms hnn
    have hm : m ≤ base + MIN_OVER_THRESHOLD := hms m (by simp)
    have hms' : ∀ x ∈ ms', x ≤ base + MIN_OVER_THRESHOLD := fun x hx => hms x (by simp [hx])
    obtain ⟨ann, act, asum, asnn, aslot, aupd⟩ := addMeasurement_zero_spec s.meas hnn
    have hstep : nearRun base (s, led) (m :: ms')
        = nearRun base (⟨(addMeasurement s.meas 0).1, s.lastLightMeasure⟩,
            fadeLed base s.lastLightMeasure (addMeasurement s.meas 0).2) ms' := by
      show nearRun base (lightAtNear base s led m) ms' = _
      rw [lightAtNear_fade base s led m hm]
    set s1 : NearState := ⟨(addMeasurement s.meas 0).1, s.lastLightMeasure⟩ with hs1
    set led1 : Int := fadeLed base s.lastLightMeasure (addMeasurement s.meas 0).2 with hled1
    obtain ⟨inn, ilast, ict, isum, isnn, iled, iupd, izero⟩ := ih s1 led1 hms' ann
    rw [hstep]
    have hs1set : s1.meas.measSet = (addMeasurement s.meas 0).1.measSet := rfl
    have hs1ct : s1.meas.measCount = s.meas.measCount + 1 := act
    refine ⟨inn, by rw [ilast], ?_, ?_, isnn, ?_, ?_, ?_⟩
    · rw [ict, hs1ct]
      simp
      omega
    · calc measSum ((nearRun base (s1, led1) ms').1).meas.measSet
          ≤ measSum s1.meas.measSet := isum
        _ ≤ measSum s.meas.measSet := asum
    · intro _
      cases ms' with
      | nil =>
        show led1 = _
        rw [hled1, addMeasurement_snd]
        rfl
      | cons a t =>
        rw [iled (by simp)]
    · intro i
      rcases iupd i with h | h
      · rw [h, hs1set]
        exact aupd i
      · exact Or.inr h
    · intro i t h1 h2 hslot
      rcases eq_or_lt_of_le h1 with h | h
      · have hi : (s.meas.measCount + 1) % NUM_MEAS = i := by rw [← hslot, ← h]
        have hz1 : s1.meas.measSet i = 0 := by rw [hs1set, ← hi]; exact aslot
        rcases iupd i with hc | hc
        · rw [hc, hz1]
        · exact hc
      · obtain ⟨t', rfl⟩ : ∃ t', t = t' + 1 := ⟨t - 1, by omega⟩
        refine izero i t' (by omega) ?_ ?_
        · simp at h2
          omega
        · rw [hs1ct, ← hslot]
          congr 1
          omega

/-- Claim C2: during ProximityGlow fade-out (every reading at most
`baseline + MinOverThreshold`), with a nonnegative baseline, nonnegative
proximity-buffer contents and a nonnegative retained near-branch brightness
`L = lastLightMeasure`, the brightness written on consecutive fade ticks is
non-increasing, every written brightness lies in `[0, L]`, and from the
`NUM_MEAS = 50`-th fade tick on the written brightness is exactly `0` — so
`0` is reached within `M` ticks, a bound depending only on the window `M`
(and trivially on the prior brightness). -/
theorem fadeOut_monotone_bounded (base L : Int) (s : NearState) (led : Int)
    (ms : List Int)
    (hb : 0 ≤ base) (hL : 0 ≤ L) (hlast : s.lastLightMeasure = L)
    (hnn : ∀ i, 0 ≤ s.meas.measSet i)
    (hms : ∀ m ∈ ms, m ≤ base + MIN_OVER_THRESHOLD) :
    (∀ p m q, ms = p ++ m :: q → p ≠ [] →
        (nearRun base (s, led) (p ++ [m])).2 ≤ (nearRun base (s, led) p).2) ∧
      (∀ p q, ms = p ++ q → p ≠ [] →
        0 ≤ (nearRun base (s, led) p).2 ∧ (nearRun base (s, led) p).2 ≤ L) ∧
      (∀ p q, ms = p ++ q → NUM_MEAS ≤ p.length →
        (nearRun base (s, led) p).2 = 0) := by
  refine ⟨?_, ?_, ?_⟩
  · intro p m q hsplit hp
    have hmsp : ∀ x ∈ p, x ≤ base + MIN_OVER_THRESHOLD := by
      intro x hx
      exact hms x (by rw [hsplit]; exact List.mem_append_left _ hx)
    have hmm : m ≤ base + MIN_OVER_THRESHOLD := hms m (by rw [hsplit]; simp)
    obtain ⟨pnn, plast, pct, psum, psnn, pled, pupd, pzero⟩ :=
      fadeRun base p s led hmsp hnn
    have happ : nearRun base (s, led) (p ++ [m])
        = lightAtNear base (nearRun base (s, led) p).1 (nearRun base (s, led) p).2 m := by
      rw [nearRun_append]
      rfl
    rw [happ, lightAtNear_fade base _ _ m hmm]
    obtain ⟨ann, act, asum, asnn, aslot, aupd⟩ :=
      addMeasurement_zero_spec (nearRun base (s, led) p).1.meas pnn
    rw [pled hp, plast, hlast, addMeasurement_snd]
    show fadeLed base L _ ≤ fadeLed base L _
    apply fadeLed_mono
    exact tdiv_le_tdiv_natCast _ _ NUM_MEAS asnn asum
  · intro p q hsplit hp
    have hmsp : ∀ x ∈ p, x ≤ base + MIN_OVER_THRESHOLD := by
      intro x hx
      exact hms x (by rw [hsplit]; exact List.mem_append_left _ hx)
    obtain ⟨pnn, plast, pct, psum, psnn, pled, pupd, pzero⟩ :=
      fadeRun base p s led hmsp hnn
    rw [pled hp, hlast]
    exact ⟨fadeLed_nonneg _ _ _, fadeLed_le _ _ _ hL⟩
  · intro p q hsplit hlen
    have hp : p ≠ [] := by
      intro h
      rw [h] at hlen
      simp [NUM_MEAS] at hlen
    have hmsp : ∀ x ∈ p, x ≤ base + MIN_OVER_THRESHOLD := by
      intro x hx
      exact hms x (by rw [hsplit]; exact List.mem_append_left _ hx)
    obtain ⟨pnn, plast, pct, psum, psnn, pled, pupd, pzero⟩ :=
      fadeRun base p s led hmsp hnn
    have hzero : measSum ((nearRun base (s, led) p).1).meas.measSet = 0 := by
      unfold measSum
      apply Finset.sum_eq_zero
      intro i hi
      have hi' : i < NUM_MEAS := Finset.mem_range.mp hi
      refine pzero i (((i + NUM_MEAS - (s.meas.measCount + 1) % NUM_MEAS) % NUM_MEAS) + 1)
        (by omega) ?_ ?_
      · have : (i + NUM_MEAS - (s.meas.measCount + 1) % NUM_MEAS) % NUM_MEAS < NUM_MEAS :=
          Nat.mod_lt _ (by norm_num [NUM_MEAS])
        omega
      · simp only [NUM_MEAS] at hi' ⊢
        omega
    rw [pled hp, hzero, Int.zero_tdiv]
    exact fadeLed_zero base s.lastLightMeasure hb (hlast ▸ hL)

theorem fadeOut_monotone_bounded_witness :
    (nearRun 700 ((⟨⟨fun _ => 0, 0⟩, 40⟩ : NearState), (40 : Int)) ([650] ++ [650])).2
        ≤ (nearRun 700 ((⟨⟨fun _ => 0, 0⟩, 40⟩ : NearState), (40 : Int)) [650]).2 ∧
      (nearRun 700 ((⟨⟨fun _ => 0, 0⟩, 40⟩ : NearState), (40 : Int))
          (650 :: 650 :: List.replicate 48 650)).2 = 0 := by
  have h := fadeOut_monotone_bounded 700 40 ⟨⟨fun _ => 0, 0⟩, 40⟩ 40
      (650 :: 650 :: List.replicate 48 650) (by norm_num) (by norm_num) rfl
      (fun i => le_rfl)
      (by
        intro x hx
        simp [List.mem_replicate, MIN_OVER_THRESHOLD] at hx ⊢
        omega)
  exact ⟨h.1 [650] 650 (List.replicate 48 650) rfl (by simp),
    h.2.2 (650 :: 650 :: List.replicate 48 650) [] (by simp)
      (by simp only [NUM_MEAS, List.length_cons, List.length_replicate]; omega)⟩

/-! ### Claim C3: range of values written to the LED -/

lemma lightAtNear_near (base : Int) (s : NearState) (led m : Int)
    (h1 : m > base + MIN_OVER_THRESHOLD)
    (h2 : (addMeasurement s.meas m).2 > base + MIN_OVER_THRESHOLD) :
    lightAtNear base s led m
      = (⟨(addMeasurement s.meas m).1, (addMeasurement s.meas m).2 - base⟩,
          (addMeasurement s.meas m).2 - base) := by
  simp only [lightAtNear, if_pos h1, if_pos h2]

lemma measSum_upd_10000 :
    measSum (Function.update (fun _ => (10000 : Int)) 1 4050) = 494050 := by
  unfold measSum
  rw [sum_update_range NUM_MEAS (fun _ => (10000 : Int)) 1 (by norm_num [NUM_MEAS]) 4050]
  norm_num [NUM_MEAS, Finset.sum_const, Finset.card_range, nsmul_eq_mul]

lemma addMeasurement_10000_4050 :
    (addMeasurement (⟨fun _ => 10000, 0⟩ : MeasState) 4050).2 = 9881 := by
  have hset : ((addMeasurement (⟨fun _ => 10000, 0⟩ : MeasState) 4050).1).measSet
      = Function.update (fun _ => (10000 : Int)) 1 4050 := by
    rw [addMeasurement_fst]
    norm_num [NUM_MEAS]
  rw [addMeasurement_snd, hset, measSum_upd_10000]
  decide

/-- Claim C3 as stated is false on the code: the near branch of
`lightAtNear` writes `average - baseline` with no upper clamp, so with the
proximity buffer full of high readings (10000), baseline 4000 and reading
4050 (which is between `baseline + MinOverThreshold` and the touch
threshold `baseline + Spread`), the value passed to the LED sink is 5881,
far above 255. -/
theorem brightness_exceeds_byte :
    (lightAtNear 4000 ⟨⟨fun _ => 10000, 0⟩, 0⟩ 0 4050).2 = 5881 ∧
      ¬ ((lightAtNear 4000 ⟨⟨fun _ => 10000, 0⟩, 0⟩ 0 4050).2 ≤ 255) := by
  have h := lightAtNear_near 4000 ⟨⟨fun _ => 10000, 0⟩, 0⟩ 0 4050
      (by norm_num [MIN_OVER_THRESHOLD])
      (by rw [addMeasurement_10000_4050]; norm_num [MIN_OVER_THRESHOLD])
  rw [h]
  show (addMeasurement (⟨fun _ => 10000, 0⟩ : MeasState) 4050).2 - 4000 = 5881 ∧
    ¬ ((addMeasurement (⟨fun _ => 10000, 0⟩ : MeasState) 4050).2 - 4000 ≤ 255)
  rw [addMeasurement_10000_4050]
  norm_num

/-- Claim C3 (amended): every value the core passes to the LED sink is
nonnegative — the fade-out closing value is explicitly clamped to `≥ 0`, a
suppressed near write retains the previous (nonnegative) LED value, and a
performed near write `average - baseline` is at least `MinOverThreshold + 1
> 0`; moreover the pulse write always lies in `[MinBrightness, 255]`.  The
near-branch write, however, is not bounded above by 255 (see the
counterexample), so the full `0..255` range claim holds only for the pulse
path and the lower bound for the proximity path. -/
theorem brightness_writes_amended :
    (∀ n : Nat, 1 ≤ n → MINUMUM_BRIGHTNESS ≤ pulseOut n ∧ pulseOut n ≤ 255) ∧
      (∀ (base : Int) (s : NearState) (led m : Int), 0 ≤ led →
        0 ≤ (lightAtNear base s led m).2) := by
  constructor
  · intro n hn
    have h := pulseOut_bounds n hn
    exact ⟨by exact_mod_cast h.1, h.2⟩
  · intro base s led m hled
    simp only [lightAtNear, MIN_OVER_THRESHOLD]
    split_ifs <;> dsimp only <;> omega

theorem brightness_writes_amended_witness :
    (MINUMUM_BRIGHTNESS ≤ pulseOut 3 ∧ pulseOut 3 ≤ 255) ∧
      0 ≤ (lightAtNear 725 ⟨⟨fun _ => 0, 0⟩, 0⟩ 0 726).2 :=
  ⟨brightness_writes_amended.1 3 (by norm_num),
    brightness_writes_amended.2 725 ⟨⟨fun _ => 0, 0⟩, 0⟩ 0 726 le_rfl⟩

/-! ### The control loop (source lines 284–353)

One tick reads the sensor, updates the baseline and threshold, stamps
`touchTime` when the reading reaches the threshold (`checkDebug` is a no-op),
returns early inside the settling window, and otherwise runs the pulse or the
proximity-glow behavior depending on the time since the last touch. -/

structure LoopState where
  base : BaseState
  qt_base : Int
  qt_Threshold : Int
  touchTime : Int
  near : NearState
  pulse : PulseState
  led : Int

/-- State at the first entry of `loop()`: `setup()` seeded the baseline
buffer with `qt_base = 725` and drove the LED to 0; the statics of
`addMeasurement`, `lightAtNear` and `lightAtStep` are zero-initialized;
`static int touchTime = millis() - DEBUG_CLEAR_TIME` runs at the first
call, with `millis()` equal to the first tick's time `t0`. -/
def loopInit (t0 : Int) : LoopState :=
  { base := freshBase 725
    qt_base := 725
    qt_Threshold := 725 + SPREAD
    touchTime := t0 - DEBUG_CLEAR_TIME
    near := ⟨⟨fun _ => 0, 0⟩, 0⟩
    pulse := pulse0
    led := 0 }

/-- One iteration of `loop()` at time `now` with sensor reading `qt1`. -/
def loopTick (s : LoopState) (now : Int) (qt1 : Int) : LoopState :=
  let b := baseAvg s.base qt1
  let qb := b.2
  let th := qb + SPREAD
  let tt := if isTouch qt1 qb then now else s.touchTime
  if now < BASELINE_TIME then
    { s with base := b.1, qt_base := qb, qt_Threshold := th, touchTime := tt }
  else if now - tt < LIGHT_ON_TIME then
    let p := lightAtStep s.pulse
    { base := b.1, qt_base := qb, qt_Threshold := th, touchTime := tt,
      near := s.near, pulse := p.1, led := p.2 }
  else
    let n := lightAtNear qb s.near s.led qt1
    { base := b.1, qt_base := qb, qt_Threshold := th, touchTime := tt,
      near := n.1, pulse := s.pulse, led := n.2 }

/-- Runs the loop over a list of readings; tick number `k` (1-based) happens
at time `times k`. -/
def loopRunFrom (times : Nat → Int) : Nat → LoopState → List Int → LoopState
  | _, s, [] => s
  | k, s, r :: rs => loopRunFrom times (k + 1) (loopTick s (times k) r) rs

lemma baseAvg_const_buffer (ct : Nat) (r v : Int) :
    baseAvg ⟨fun _ => v, ct⟩ r
      = (⟨Function.update (fun _ => v) ((ct + 1) % NUM_BASELINE) r, ct + 1⟩,
          Int.tdiv ((NUM_BASELINE : Int) * v - v + r) (NUM_BASELINE : Int)) := by
  have hsum : baseSum (Function.update (fun _ => v) ((ct + 1) % NUM_BASELINE) r)
      = (NUM_BASELINE : Int) * v - v + r := by
    unfold baseSum
    rw [sum_update_range NUM_BASELINE (fun _ => v) _
        (Nat.mod_lt _ (by norm_num [NUM_BASELINE])) r]
    rw [Finset.sum_const, Finset.card_range, nsmul_eq_mul]
  simp only [baseAvg, hsum]

/-- Claim C7 as stated is false on the code: the touch check (and timestamp
update) runs before the settling-window early return, so a tick at
`now = 100 < 5000` whose reading `10000` reaches the freshly recomputed
threshold overwrites `touchTime` — state other than the baseline
accumulation changes during the settling window. -/
theorem settle_tick_updates_touchTime :
    (loopTick (loopInit 0) 100 10000).touchTime = 100 ∧
      (loopInit 0).touchTime = -30000 ∧ (100 : Int) < BASELINE_TIME ∧
      ¬ (loopTick (loopInit 0) 100 10000).touchTime = (loopInit 0).touchTime := by
  have hb : (loopInit 0).base = ⟨fun _ => 725, 0⟩ := rfl
  have havg : baseAvg ⟨fun _ => 725, 0⟩ 10000
      = (⟨Function.update (fun _ => 725) ((0 + 1) % NUM_BASELINE) 10000, 0 + 1⟩,
          Int.tdiv ((NUM_BASELINE : Int) * 725 - 725 + 10000) (NUM_BASELINE : Int)) :=
    baseAvg_const_buffer 0 10000 725
  have hval : Int.tdiv ((NUM_BASELINE : Int) * 725 - 725 + 10000) (NUM_BASELINE : Int)
      = 726 := by decide
  have htouch : isTouch 10000 726 = true := by decide
  refine ⟨?_, rfl, by norm_num [BASELINE_TIME], ?_⟩
  · show (loopTick (loopInit 0) 100 10000).touchTime = 100
    simp only [loopTick, hb, havg, hval, htouch, if_true]
    split_ifs <;> rfl
  · intro hcontra
    have h1 : (loopTick (loopInit 0) 100 10000).touchTime = 100 := by
      simp only [loopTick, hb, havg, hval, htouch, if_true]
      split_ifs <;> rfl
    rw [h1] at hcontra
    have h2 : (loopInit 0).touchTime = -30000 := rfl
    rw [h2] at hcontra
    norm_num at hcontra

/-- Claim C7 (amended): during the settling window (`now < 5000` ms) a tick
performs baseline accumulation plus the always-on touch-timestamp check, and
no light-control logic: the LED output, the pulse state and the proximity
state are all unchanged; besides the baseline buffer and the derived
`qt_base`/`qt_Threshold`, only `touchTime` may change, and it becomes `now`
exactly when the reading meets the freshly recomputed threshold. -/
theorem settle_window_frame (s : LoopState) (now qt1 : Int) (h : now < BASELINE_TIME) :
    (loopTick s now qt1).led = s.led ∧
      (loopTick s now qt1).pulse = s.pulse ∧
      (loopTick s now qt1).near = s.near ∧
      (loopTick s now qt1).base = (baseAvg s.base qt1).1 ∧
      (loopTick s now qt1).qt_base = (baseAvg s.base qt1).2 ∧
      (loopTick s now qt1).qt_Threshold = (baseAvg s.base qt1).2 + SPREAD ∧
      (loopTick s now qt1).touchTime
        = (if isTouch qt1 (baseAvg s.base qt1).2 then now else s.touchTime) := by
  simp only [loopTick, if_pos h]
  simp

theorem settle_window_frame_witness :
    (0 : Int) < BASELINE_TIME ∧ (loopTick (loopInit 0) 0 725).led = (loopInit 0).led :=
  ⟨by norm_num [BASELINE_TIME],
    (settle_window_frame (loopInit 0) 0 725 (by norm_num [BASELINE_TIME])).1⟩

/-! ### Claim C6: the 5001-tick touch scenario -/

/-- Invariant of a run fed only the seed reading 725: the baseline buffer
still holds 725 everywhere, `base_ct` counts the ticks, the baseline and
threshold are 725 and 788, and the touch timestamp still holds its boot
value. -/
def SettledConst (t0 : Int) (k : Nat) (s : LoopState) : Prop :=
  s.base.readings = (fun _ => 725) ∧ s.base.ct = k ∧ s.qt_base = 725 ∧
    s.qt_Threshold = 788 ∧ s.touchTime = t0 - DEBUG_CLEAR_TIME

lemma baseAvg_const_725 (ct : Nat) :
    baseAvg ⟨fun _ => 725, ct⟩ 725 = (⟨fun _ => 725, ct + 1⟩, 725) := by
  rw [baseAvg_const_buffer]
  have h1 : Function.update (fun _ => (725 : Int)) ((ct + 1) % NUM_BASELINE) 725
      = fun _ => (725 : Int) := Function.update_eq_self _ _
  have h2 : Int.tdiv ((NUM_BASELINE : Int) * 725 - 725 + 725) (NUM_BASELINE : Int) = 725 := by
    decide
  rw [h1, h2]

lemma base_ext (s : LoopState) (f : Nat → Int) (n : Nat)
    (h1 : s.base.readings = f) (h2 : s.base.ct = n) : s.base = ⟨f, n⟩ := by
  rcases hsb : s.base with ⟨rd, ct⟩
  rw [hsb] at h1 h2
  dsimp only at h1 h2
  rw [h1, h2]

lemma loopTick_const_725 (t0 now : Int) (k : Nat) (s : LoopState)
    (h : SettledConst t0 k s) : SettledConst t0 (k + 1) (loopTick s now 725) := by
  obtain ⟨h1, h2, h3, h4, h5⟩ := h
  have hb : s.base = ⟨fun _ => 725, k⟩ := base_ext s _ k h1 h2
  have htch : isTouch 725 725 = false := by decide
  unfold SettledConst loopTick
  rw [hb, baseAvg_const_725 k]
  dsimp only
  rw [htch]
  simp only [Bool.false_eq_true, if_false]
  split_ifs <;> exact ⟨rfl, rfl, rfl, by norm_num [SPREAD], h5⟩

lemma loopRun_const_725 (times : Nat → Int) (t0 : Int) :
    ∀ (rs : List Int) (k0 kt : Nat) (s : LoopState),
      (∀ r ∈ rs, r = (725 : Int)) → SettledConst t0 kt s →
      SettledConst t0 (kt + rs.length) (loopRunFrom times k0 s rs) := by
  intro rs
  induction rs with
  | nil =>
    intro k0 kt s _ h
    simpa using h
  | cons r t ih =>
    intro k0 kt s hall h
    have hr : r = 725 := hall r (by simp)
    subst hr
    have h1 := loopTick_const_725 t0 (times k0) kt s h
    have h2 := ih (k0 + 1) (kt + 1) _ (fun x hx => hall x (by simp [hx])) h1
    show SettledConst t0 (kt + ((725 : Int) :: t).length)
      (loopRunFrom times (k0 + 1) (loopTick s (times k0) 725) t)
    rw [show kt + ((725 : Int) :: t).length = (kt + 1) + t.length by simp; omega]
    exact h2

lemma tick_800_fields (s : LoopState) (now : Int) (hb : s.base = ⟨fun _ => 725, 5000⟩) :
    (loopTick s now 800).qt_base = 725 ∧
      (loopTick s now 800).qt_Threshold = 725 + SPREAD ∧
      (loopTick s now 800).touchTime = now := by
  unfold loopTick
  rw [hb, baseAvg_const_buffer 5000 800 725]
  dsimp only
  rw [show Int.tdiv ((NUM_BASELINE : Int) * 725 - 725 + 800) (NUM_BASELINE : Int) = 725
      from by decide]
  rw [show isTouch 800 725 = true from by decide]
  simp only [if_true]
  split_ifs <;> exact ⟨rfl, rfl, rfl⟩

/-- Claim C6: starting from the boot state (baseline seeded at 725,
Spread 63, so threshold 788), feeding 5000 readings equal to 725 leaves the
touch timestamp at its boot value (no touch is ever detected, since every
tick's threshold is 788 > 725); on tick 5001 the reading 800 is at or above
the threshold recomputed that tick (still 788, since the baseline mean is
still 725 after inserting the 800), a touch is detected, and the touch
timestamp is overwritten with tick 5001's current time. -/
theorem touch_detected_tick_5001 (times : Nat → Int) :
    (loopRunFrom times 1 (loopInit (times 1)) (List.replicate 5000 725)).touchTime
        = times 1 - DEBUG_CLEAR_TIME ∧
      (loopTick (loopRunFrom times 1 (loopInit (times 1)) (List.replicate 5000 725))
          (times 5001) 800).qt_Threshold = 788 ∧
      isTouch 800
          (loopTick (loopRunFrom times 1 (loopInit (times 1)) (List.replicate 5000 725))
            (times 5001) 800).qt_base = true ∧
      (loopTick (loopRunFrom times 1 (loopInit (times 1)) (List.replicate 5000 725))
          (times 5001) 800).touchTime = times 5001 := by
  have hinit : SettledConst (times 1) 0 (loopInit (times 1)) :=
    ⟨rfl, rfl, rfl, by norm_num [loopInit, SPREAD], rfl⟩
  have h5000 := loopRun_const_725 times (times 1) (List.replicate 5000 725) 1 0
      (loopInit (times 1)) (fun r hr => List.eq_of_mem_replicate hr) hinit
  rw [List.length_replicate] at h5000
  obtain ⟨g1, g2, g3, g4, g5⟩ := h5000
  have hb : (loopRunFrom times 1 (loopInit (times 1)) (List.replicate 5000 725)).base
      = ⟨fun _ => 725, 5000⟩ := base_ext _ _ _ g1 (by rw [g2])
  obtain ⟨f1, f2, f3⟩ := tick_800_fields _ (times 5001) hb
  refine ⟨g5, ?_, ?_, f3⟩
  · rw [f2]
    norm_num [SPREAD]
  · rw [f1]
    decide

/-! ### Claim C10: a touch-free run never pulses -/

/-- The input stream never satisfies the touch condition: at each tick the
reading is below the threshold recomputed from the baseline state at that
tick. -/
def touchFree (times : Nat → Int) : Nat → LoopState → List Int → Prop
  | _, _, [] => True
  | k, s, r :: rs =>
      isTouch r (baseAvg s.base r).2 = false ∧
        touchFree times (k + 1) (loopTick s (times k) r) rs

lemma touchFree_append (times : Nat → Int) :
    ∀ (l q : List Int) (k : Nat) (s : LoopState),
      touchFree times k s (l ++ q) → touchFree times k s l := by
  intro l
  induction l with
  | nil =>
    intro q k s _
    trivial
  | cons r t ih =>
    intro q k s h
    obtain ⟨h1, h2⟩ := h
    exact ⟨h1, ih q (k + 1) _ h2⟩

lemma loopTick_no_touch (t0 : Int) (s : LoopState) (now r : Int)
    (hmono : t0 ≤ now)
    (htt : s.touchTime = t0 - DEBUG_CLEAR_TIME)
    (hnt : isTouch r (baseAvg s.base r).2 = false) :
    (loopTick s now r).touchTime = t0 - DEBUG_CLEAR_TIME ∧
      (loopTick s now r).pulse = s.pulse := by
  unfold loopTick
  dsimp only
  rw [hnt]
  simp only [Bool.false_eq_true, if_false]
  split_ifs with hs hl
  · exact ⟨htt, rfl⟩
  · exfalso
    rw [htt] at hl
    simp only [DEBUG_CLEAR_TIME, LIGHT_ON_TIME] at hl
    omega
  · exact ⟨htt, rfl⟩

lemma no_touch_inv (times : Nat → Int) (t0 : Int) (hmono : ∀ k, t0 ≤ times k) :
    ∀ (rs : List Int) (k : Nat) (s : LoopState),
      s.touchTime = t0 - DEBUG_CLEAR_TIME →
      touchFree times k s rs →
      (loopRunFrom times k s rs).touchTime = t0 - DEBUG_CLEAR_TIME ∧
        (loopRunFrom times k s rs).pulse = s.pulse := by
  intro rs
  induction rs with
  | nil =>
    intro k s h _
    exact ⟨h, rfl⟩
  | cons r t ih =>
    intro k s htt hfree
    obtain ⟨hnt, hrest⟩ := hfree
    obtain ⟨hstep1, hstep2⟩ := loopTick_no_touch t0 s (times k) r (hmono k) htt hnt
    have h2 := ih (k + 1) (loopTick s (times k) r) hstep1 hrest
    exact ⟨h2.1, by rw [show (loopRunFrom times k s (r :: t)).pulse
      = (loopRunFrom times (k + 1) (loopTick s (times k) r) t).pulse from rfl, h2.2, hstep2]⟩

/-- Claim C10: if no tick's reading ever reaches the recomputed threshold
(touch-free input) and the tick times never precede the boot instant, then
because the touch timestamp is initialized `DEBUG_CLEAR_TIME = 30000` ms in
the past, the elapsed-time test never selects the pulse branch: after every
prefix of the run the pulse state is still the fresh `pulse0` (the pulse
animation is never invoked) and the touch timestamp still holds its boot
value. -/
theorem no_touch_never_pulses (times : Nat → Int) (rs : List Int)
    (hmono : ∀ k, times 1 ≤ times k)
    (hfree : touchFree times 1 (loopInit (times 1)) rs) :
    ∀ l q, rs = l ++ q →
      (loopRunFrom times 1 (loopInit (times 1)) l).pulse = pulse0 ∧
        (loopRunFrom times 1 (loopInit (times 1)) l).touchTime
          = times 1 - DEBUG_CLEAR_TIME := by
  intro l q hsplit
  have hfl : touchFree times 1 (loopInit (times 1)) l :=
    touchFree_append times l q 1 _ (hsplit ▸ hfree)
  have h := no_touch_inv times (times 1) hmono l 1 (loopInit (times 1)) rfl hfl
  exact ⟨h.2, h.1⟩

theorem no_touch_never_pulses_witness :
    (loopRunFrom (fun _ => 0) 1 (loopInit 0) [725]).pulse = pulse0 ∧
      (loopRunFrom (fun _ => 0) 1 (loopInit 0) [725]).touchTime = 0 - DEBUG_CLEAR_TIME := by
  have hfree : touchFree (fun _ => 0) 1 (loopInit 0) [725] := by
    refine ⟨?_, trivial⟩
    rw [show (loopInit 0).base = ⟨fun _ => (725 : Int), 0⟩ from rfl, baseAvg_const_725 0]
    decide
  exact no_touch_never_pulses (fun _ => 0) [725] (fun k => le_rfl) hfree [725] [] (by simp)

end FairyFun
